import Mathlib

/-!
Verification development for the AudioExtractor repository.

The definitions below are shallow embeddings of the Python sources:
  - `split_audio` embeds `split_audio_for_whisper` (src/whisper_transcriber.py,
    lines 58-88) and `split_audio_for_vosk` (src/vosk_transcriber.py, lines
    125-155), which share the same algorithm and differ only in the default
    segment length (600 s vs 300 s).
  - `tryRecognize`, `numChunks`, `runChunks` and `audio_to_text` embed the
    chunked retry pipeline of `audio_to_text` (src/main.py, lines 159-259).
  - `format_text`, `format_whisper_result` and `format_vosk_result` embed the
    three formatters (src/main.py 93-146, src/whisper_transcriber.py 201-253,
    src/vosk_transcriber.py 362-414).

Durations are modelled in integer milliseconds (pydub's `len(audio)` is an
integer number of milliseconds); Python float arithmetic on these quantities
is modelled exactly.  Fallible operations (audio decoding, file export,
recognition requests) are modelled as explicit inputs: an `Except`/`Option`
value or an oracle function supplies the outcome the external world would
have produced, and the embedded control flow reacts to it exactly as the
source does.
-/

/-- Python `str.split()` whitespace test for the ASCII whitespace characters
(space, tab, newline, carriage return, vertical tab, form feed). -/
def pyIsSpace (c : Char) : Bool :=
  c = ' ' || c = '\t' || c = '\n' || c = '\r' || c = '\x0b' || c = '\x0c'

/-- Worker for Python `str.split()` (no separator argument): splits on runs
of whitespace and never yields empty tokens.  `acc` holds the current token's
characters in reverse order. -/
def pySplitGo : List Char → List Char → List (List Char)
  | [], acc => if acc.isEmpty then [] else [acc.reverse]
  | c :: cs, acc =>
    if pyIsSpace c then
      if acc.isEmpty then pySplitGo cs [] else acc.reverse :: pySplitGo cs []
    else
      pySplitGo cs (c :: acc)

/-- Python `text.split()`: the list of whitespace-separated tokens. -/
def pySplit (s : String) : List String :=
  (pySplitGo s.data []).map String.mk

/-- Python `sep.join(xs)`. -/
def pyJoin (sep : String) : List String → String
  | [] => ""
  | [a] => a
  | a :: b :: t => a ++ sep ++ pyJoin sep (b :: t)

/-- Character-level image of `pyJoin " "`, used in proofs. -/
def joinChars : List (List Char) → List Char
  | [] => []
  | [w] => w
  | w :: x :: t => w ++ ' ' :: joinChars (x :: t)

/-- Python `' '.join(text.split())`: the whitespace-collapsed form of a text.
All three formatters start with exactly this operation. -/
def collapse (s : String) : String :=
  pyJoin " " (pySplit s)

/-- Worker for Python `str.split(sep)` with a one-character separator (used
by the source only as `p.split('\n')`); keeps empty pieces, like Python. -/
def pySplitOnGo (sep : Char) : List Char → List Char → List (List Char)
  | [], acc => [acc.reverse]
  | c :: cs, acc =>
    if c = sep then acc.reverse :: pySplitOnGo sep cs []
    else pySplitOnGo sep cs (c :: acc)

/-- Does `pat` occur at the very start of `l`? -/
def startsWithChars : List Char → List Char → Bool
  | [], _ => true
  | _ :: _, [] => false
  | p :: ps, c :: cs => p = c && startsWithChars ps cs

/-- Does `pat` occur anywhere inside `l`? -/
def occursIn (pat : List Char) : List Char → Bool
  | [] => startsWithChars pat []
  | c :: cs => startsWithChars pat (c :: cs) || occursIn pat cs

/-- Substring test on strings (used to state facts about the rendered
documents). -/
def strOccurs (pat s : String) : Bool :=
  occursIn pat.data s.data

/-- The mutable state of the greedy line-packing loop shared by the three
formatters: `current_line` (a list of words), `current_length`,
`paragraphs` (already joined with newlines, as in the source) and
`current_paragraph` (a list of joined line strings). -/
structure FmtState where
  line : List String
  len : Nat
  paras : List String
  para : List String

/-- One iteration of the `for word in words` loop of `format_text`
(src/main.py lines 110-129), parameterised by the configured maximum line
length and paragraph line cap (120/5 in main.py, 80/4 in the whisper and
vosk modules). -/
def fmtStep (maxLen cap : Nat) (s : FmtState) (w : String) : FmtState :=
  if s.len + w.length + 1 ≤ maxLen then
    ⟨s.line ++ [w], s.len + w.length + 1, s.paras, s.para⟩
  else
    let q := if s.line.isEmpty then s.para else s.para ++ [pyJoin " " s.line]
    if cap ≤ q.length then ⟨[w], w.length, s.paras ++ [pyJoin "\n" q], []⟩
    else ⟨[w], w.length, s.paras, q⟩

/-- The trailing flush of `format_text` (src/main.py lines 131-135): append
the last line and the last paragraph if nonempty. -/
def fmtFinish (s : FmtState) : List String :=
  let q := if s.line.isEmpty then s.para else s.para ++ [pyJoin " " s.line]
  if q.isEmpty then s.paras else s.paras ++ [pyJoin "\n" q]

/-- The full re-flow: the list of paragraph strings produced from a word
list, exactly as in the three formatters. -/
def reflowParas (maxLen cap : Nat) (ws : List String) : List String :=
  fmtFinish (ws.foldl (fmtStep maxLen cap) ⟨[], 0, [], []⟩)

/-- `format_text` from src/main.py lines 93-146: collapse whitespace, re-flow
into 120-character lines and 5-line paragraphs, glue the header and the four
statistics lines (the source appends the statistics directly after the body
with no separator). -/
def format_text (text : String) : String :=
  let t := collapse text
  let ws := pySplit t
  let paragraphs := reflowParas 120 5 ws
  "ТРАНСКРИПЦИЯ АУДИО\n" ++ pyJoin "\n\n" paragraphs
    ++ "Количество строк: "
        ++ toString ((paragraphs.map (fun p => (pySplitOnGo '\n' p.data []).length)).sum) ++ "\n"
    ++ "Количество слов: " ++ toString ws.length ++ "\n"
    ++ "Количество символов: " ++ toString t.length ++ "\n"
    ++ "Количество параграфов: " ++ toString paragraphs.length ++ "\n"

/-- `format_whisper_result` from src/whisper_transcriber.py lines 201-253:
80-character lines, 4-line paragraphs, statistics block with word and
character counts only. -/
def format_whisper_result (text : String) : String :=
  let t := collapse text
  let ws := pySplit t
  let paragraphs := reflowParas 80 4 ws
  "ТРАНСКРИПЦИЯ АУДИО (WHISPER)\n\n" ++ pyJoin "\n\n" paragraphs
    ++ "\n\nСтатистика:\n"
    ++ "Количество слов: " ++ toString ws.length ++ "\n"
    ++ "Количество символов: " ++ toString t.length ++ "\n"

/-- `format_vosk_result` from src/vosk_transcriber.py lines 362-414:
identical to the whisper formatter except for the header label. -/
def format_vosk_result (text : String) : String :=
  let t := collapse text
  let ws := pySplit t
  let paragraphs := reflowParas 80 4 ws
  "ТРАНСКРИПЦИЯ АУДИО (VOSK)\n\n" ++ pyJoin "\n\n" paragraphs
    ++ "\n\nСтатистика:\n"
    ++ "Количество слов: " ++ toString ws.length ++ "\n"
    ++ "Количество символов: " ++ toString t.length ++ "\n"

/-- Structured mirror of `FmtState` keeping lines as word lists and
paragraphs as lists of lines, used to prove word-preservation and length
bounds of the re-flow. -/
structure GState where
  line : List String
  len : Nat
  paras : List (List (List String))
  para : List (List String)

/-- Structured mirror of `fmtStep`. -/
def gStep (maxLen cap : Nat) (s : GState) (w : String) : GState :=
  if s.len + w.length + 1 ≤ maxLen then
    ⟨s.line ++ [w], s.len + w.length + 1, s.paras, s.para⟩
  else
    let q := if s.line.isEmpty then s.para else s.para ++ [s.line]
    if cap ≤ q.length then ⟨[w], w.length, s.paras ++ [q], []⟩
    else ⟨[w], w.length, s.paras, q⟩

/-- Structured mirror of `fmtFinish`. -/
def gFinish (s : GState) : List (List (List String)) :=
  let q := if s.line.isEmpty then s.para else s.para ++ [s.line]
  if q.isEmpty then s.paras else s.paras ++ [q]

/-- Structured re-flow: paragraphs as lists of lines, lines as word lists. -/
def reflowG (maxLen cap : Nat) (ws : List String) : List (List (List String)) :=
  gFinish (ws.foldl (gStep maxLen cap) ⟨[], 0, [], []⟩)

/-- Render a structured paragraph as the source does: words joined by spaces,
lines joined by newlines. -/
def renderPara (p : List (List String)) : String :=
  pyJoin "\n" (p.map (fun l => pyJoin " " l))

/-- Character length of a line of words once rendered with single spaces. -/
def lineLen (l : List String) : Nat :=
  (l.map String.length).sum + (l.length - 1)

/-- All words held in a structured packing state, in input order. -/
def gWords (g : GState) : List String :=
  g.paras.flatten.flatten ++ g.para.flatten ++ g.line

/-- A segment returned by the splitters: either the original input file
itself (`whole`, the pass-through and error cases, where the source returns
`[audio_path]`) or a materialized slice `audio[startMs:stopMs]` written to a
segment file. -/
inductive Seg where
  | whole
  | part (startMs stopMs : Nat)
deriving DecidableEq

/-- `split_audio_for_whisper` / `split_audio_for_vosk`
(src/whisper_transcriber.py 58-88, src/vosk_transcriber.py 125-155).

`load` is the result of `AudioSegment.from_file`: on error the whole body is
caught by the `except` and `[audio_path]` is returned.  On success it carries
`len(audio)` in milliseconds.  `expOk i` tells whether the `segment.export`
call of iteration `i` succeeds; the first failing export raises, is caught by
the same `except`, and again `[audio_path]` is returned (the files exported
before the failure remain on disk).  The first component of the result is the
returned segment list, the second the list of segment files written.

The source computes `total_segments = int(total_duration_sec /
segment_length_sec) + 1` with `total_duration_sec = len(audio) / 1000`; in
exact arithmetic that is `d / (1000 * Lsec) + 1`. -/
def split_audio (load : Except String Nat) (expOk : Nat → Bool) (Lsec : Nat) :
    List Seg × List Seg :=
  match load with
  | Except.error _ => ([Seg.whole], [])
  | Except.ok d =>
    if d ≤ 1000 * Lsec then ([Seg.whole], [])
    else
      let L := 1000 * Lsec
      let n := d / L + 1
      let mkPart := fun i => Seg.part (i * L) (min ((i + 1) * L) d)
      match (List.range n).find? (fun i => ! expOk i) with
      | some k => ([Seg.whole], (List.range k).map mkPart)
      | none => ((List.range n).map mkPart, (List.range n).map mkPart)

/-- The whisper splitter: default segment length 600 seconds. -/
def split_audio_for_whisper (load : Except String Nat) (expOk : Nat → Bool) :
    List Seg × List Seg :=
  split_audio load expOk 600

/-- The vosk splitter: default segment length 300 seconds. -/
def split_audio_for_vosk (load : Except String Nat) (expOk : Nat → Bool) :
    List Seg × List Seg :=
  split_audio load expOk 300

/-- An export oracle under which every `segment.export` call succeeds. -/
def expTrue : Nat → Bool := fun _ => true

/-- An export oracle under which every `segment.export` call fails. -/
def expFail : Nat → Bool := fun _ => false

/-- Outcome of one `recognizer.recognize_google` call (src/main.py 211):
either it returns text, raises `sr.UnknownValueError` (no speech detected)
or raises `sr.RequestError` (service unavailable). -/
inductive RecOutcome where
  | recognized (text : String)
  | noSpeech
  | serviceError (detail : String)
deriving DecidableEq

/-- Is an outcome one of the two transient failures the retry loop absorbs? -/
def isTransient : RecOutcome → Bool
  | RecOutcome.recognized _ => false
  | RecOutcome.noSpeech => true
  | RecOutcome.serviceError _ => true

/-- The placeholder appended for chunk `c` after retries are exhausted
(src/main.py 229). -/
def chunkPlaceholder (c : Nat) : String :=
  "[Не удалось распознать часть " ++ toString c ++ "]"

/-- `max_retries = 5` (src/main.py 177). -/
def max_retries : Nat := 5

/-- The `for attempt in range(max_retries)` loop for one chunk
(src/main.py 206-229).  `oracle attempt` is the outcome of the recognition
call of that attempt; `c` is the 1-based chunk ordinal.  Returns the text
appended to `full_text` (recognized text on the first success, otherwise the
placeholder), the number of recognition calls made, and the list of backoff
sleeps performed (in seconds; the source sleeps `time.sleep(5)` in both
`except` branches, and only when `attempt < max_retries - 1`). -/
def tryRecognize (oracle : Nat → RecOutcome) (c : Nat) :
    Nat → Nat → String × Nat × List Nat
  | _, 0 => (chunkPlaceholder c, 0, [])
  | attempt, fuel + 1 =>
    match oracle attempt with
    | RecOutcome.recognized t => (t, 1, [])
    | _ =>
      if fuel = 0 then (chunkPlaceholder c, 1, [])
      else
        let r := tryRecognize oracle c (attempt + 1) fuel
        (r.1, r.2.1 + 1, 5 :: r.2.2)

/-- Number of iterations of the `while offset < duration * 1000` loop with
`offset` advancing by `chunk_duration = 30 * 1000` (src/main.py 187-231):
the ceiling of `d / 30000` for a duration of `d` milliseconds. -/
def numChunks (d : Nat) : Nat :=
  (d + 30000 - 1) / 30000

/-- The `full_text` list assembled by the chunk loop: one entry per chunk,
in chunk order, each the result of the retry loop for that chunk
(`current_chunk = offset // chunk_duration + 1` is the 1-based ordinal). -/
def runChunks (oracle : Nat → Nat → RecOutcome) (d : Nat) : List String :=
  (List.range (numChunks d)).map
    (fun i => (tryRecognize (oracle i) (i + 1) 0 max_retries).1)

/-- Observable events of one `audio_to_text` run, in order. -/
inductive PipeEv where
  | chunkDone (i : Nat)
  | outputWritten
deriving DecidableEq

/-- Result of one `audio_to_text` run. -/
structure RunResult where
  ok : Bool
  output : Option String
  chunkFiles : List (Nat × Nat)
  events : List PipeEv
deriving DecidableEq

/-- `audio_to_text` (src/main.py 159-259).  `decode` is the combined result
of WAV conversion and loading: `none` when the input cannot be decoded
(`convert_audio_to_wav` returns `None` and the function returns `False`
before any chunk is cut, or `AudioSegment.from_wav` raises into the outer
`except`); `some d` carries the audio duration in milliseconds.
`oracle i a` is the outcome of recognition attempt `a` on chunk `i`
(0-based).  Each loop iteration exports the chunk slice
`full_audio[offset : offset + 30000]` (clamped to the audio length) to a
chunk file, recognises it with retries, and appends exactly one entry to
`full_text`; the formatted transcript is written once, after the loop. -/
def audio_to_text (decode : Option Nat) (oracle : Nat → Nat → RecOutcome) :
    RunResult :=
  match decode with
  | none => ⟨false, none, [], []⟩
  | some d =>
    ⟨true,
     some (format_text (pyJoin " " (runChunks oracle d))),
     (List.range (numChunks d)).map (fun i => (30000 * i, min (30000 * i + 30000) d)),
     ((List.range (numChunks d)).map PipeEv.chunkDone) ++ [PipeEv.outputWritten]⟩

/-- A recognition oracle for one chunk that always reports no speech. -/
def allNoSpeech : Nat → RecOutcome := fun _ => RecOutcome.noSpeech

/-- A pipeline recognition oracle that always reports no speech. -/
def allNoSpeechPipe : Nat → Nat → RecOutcome := fun _ _ => RecOutcome.noSpeech

/-- Modelled from the spec (statistics block contract, spec §4.6): the
statistics block of the google-backend formatter, naming line, word,
character and paragraph counts, the word and character counts computed over
the collapsed pre-formatted text and the line and paragraph counts over the
re-flowed paragraphs. -/
def statsBlockGoogle (t : String) : String :=
  "Количество строк: "
      ++ toString (((reflowParas 120 5 (pySplit (collapse t))).map
            (fun p => (pySplitOnGo '\n' p.data []).length)).sum) ++ "\n"
    ++ "Количество слов: " ++ toString (pySplit (collapse t)).length ++ "\n"
    ++ "Количество символов: " ++ toString (collapse t).length ++ "\n"
    ++ "Количество параграфов: "
        ++ toString (reflowParas 120 5 (pySplit (collapse t))).length ++ "\n"

/-- Modelled from the spec (statistics block contract, spec §4.6): the
statistics block of the whisper and vosk formatters, reporting word and
character counts over the collapsed pre-formatted text. -/
def statsBlockLocal (t : String) : String :=
  "\n\nСтатистика:\n"
    ++ "Количество слов: " ++ toString (pySplit (collapse t)).length ++ "\n"
    ++ "Количество символов: " ++ toString (collapse t).length ++ "\n"

/-- Render a structured packing state into the string-level state, joining
lines with spaces and paragraphs with newlines exactly as the source does. -/
def renderState (g : GState) : FmtState :=
  ⟨g.line, g.len, g.paras.map renderPara, g.para.map (fun l => pyJoin " " l)⟩

/-- Invariant of the structured packing state maintained by `gStep`: closed
paragraphs have exactly `cap` lines of nonempty, length-bounded words; the
open paragraph is strictly below the cap; the tracked `len` dominates the
rendered length of the current line, and bounds it by `maxLen` whenever the
line holds at least two words. -/
def GInv (maxLen cap : Nat) (g : GState) : Prop :=
  (∀ p ∈ g.paras, p.length = cap ∧ ∀ l ∈ p, l ≠ [] ∧ (2 ≤ l.length → lineLen l ≤ maxLen)) ∧
  g.para.length < cap ∧
  (∀ l ∈ g.para, l ≠ [] ∧ (2 ≤ l.length → lineLen l ≤ maxLen)) ∧
  lineLen g.line ≤ g.len ∧
  (2 ≤ g.line.length → g.len ≤ maxLen) ∧
  (g.line = [] → g.len = 0)

/-! ### Lemmas about the retry loop -/

theorem tryRecognize_calls_le (oracle : Nat → RecOutcome) (c : Nat) :
    ∀ f a, (tryRecognize oracle c a f).2.1 ≤ f := by
  intro f
  induction f with
  | zero => intro a; simp [tryRecognize]
  | succ f ih =>
    intro a
    cases h : oracle a with
    | recognized t => simp [tryRecognize, h]
    | noSpeech =>
      by_cases hf : f = 0
      · simp [tryRecognize, h, hf]
      · simp only [tryRecognize, h, hf, if_neg hf]
        exact Nat.succ_le_succ (ih (a + 1))
    | serviceError e =>
      by_cases hf : f = 0
      · simp [tryRecognize, h, hf]
      · simp only [tryRecognize, h, hf, if_neg hf]
        exact Nat.succ_le_succ (ih (a + 1))

theorem tryRecognize_transient (oracle : Nat → RecOutcome) (c : Nat) :
    ∀ f a, 0 < f → (∀ j, j < f → isTransient (oracle (a + j)) = true) →
      tryRecognize oracle c a f = (chunkPlaceholder c, f, List.replicate (f - 1) 5) := by
  intro f
  induction f with
  | zero => intro a h; exact absurd h (lt_irrefl 0)
  | succ f ih =>
    intro a _ htr
    have h0 : isTransient (oracle a) = true := by simpa using htr 0 (Nat.succ_pos f)
    cases h : oracle a with
    | recognized t => rw [h] at h0; simp [isTransient] at h0
    | noSpeech =>
      by_cases hf : f = 0
      · subst hf; simp [tryRecognize, h]
      · have hpos : 0 < f := Nat.pos_of_ne_zero hf
        have ih2 := ih (a + 1) hpos (fun j hj => by
          have := htr (j + 1) (by omega)
          simpa [show a + (j + 1) = a + 1 + j by omega] using this)
        simp only [tryRecognize, h, if_neg hf, ih2]
        cases f with
        | zero => exact absurd rfl hf
        | succ f2 => simp [List.replicate_succ]
    | serviceError e =>
      by_cases hf : f = 0
      · subst hf; simp [tryRecognize, h]
      · have hpos : 0 < f := Nat.pos_of_ne_zero hf
        have ih2 := ih (a + 1) hpos (fun j hj => by
          have := htr (j + 1) (by omega)
          simpa [show a + (j + 1) = a + 1 + j by omega] using this)
        simp only [tryRecognize, h, if_neg hf, ih2]
        cases f with
        | zero => exact absurd rfl hf
        | succ f2 => simp [List.replicate_succ]

theorem tryRecognize_first (oracle : Nat → RecOutcome) (c a f : Nat) (t : String)
    (hf : 0 < f) (h : oracle a = RecOutcome.recognized t) :
    tryRecognize oracle c a f = (t, 1, []) := by
  cases f with
  | zero => exact absurd hf (lt_irrefl 0)
  | succ f => simp [tryRecognize, h]

theorem tryRecognize_sleeps (oracle : Nat → RecOutcome) (c : Nat) :
    ∀ f a, 0 < f →
      (tryRecognize oracle c a f).2.2.length + 1 = (tryRecognize oracle c a f).2.1 := by
  intro f
  induction f with
  | zero => intro a h; exact absurd h (lt_irrefl 0)
  | succ f ih =>
    intro a _
    cases h : oracle a with
    | recognized t => simp [tryRecognize, h]
    | noSpeech =>
      by_cases hf : f = 0
      · simp [tryRecognize, h, hf]
      · have := ih (a + 1) (Nat.pos_of_ne_zero hf)
        simp only [tryRecognize, h, if_neg hf, List.length_cons]
        omega
    | serviceError e =>
      by_cases hf : f = 0
      · simp [tryRecognize, h, hf]
      · have := ih (a + 1) (Nat.pos_of_ne_zero hf)
        simp only [tryRecognize, h, if_neg hf, List.length_cons]
        omega

theorem tryRecognize_result (oracle : Nat → RecOutcome) (c : Nat) :
    ∀ f a, 0 < f →
      (∃ j t, j < f ∧ (∀ b, b < j → isTransient (oracle (a + b)) = true) ∧
        oracle (a + j) = RecOutcome.recognized t ∧ (tryRecognize oracle c a f).1 = t) ∨
      ((∀ j, j < f → isTransient (oracle (a + j)) = true) ∧
        (tryRecognize oracle c a f).1 = chunkPlaceholder c) := by
  intro f
  induction f with
  | zero => intro a h; exact absurd h (lt_irrefl 0)
  | succ f ih =>
    intro a _
    cases h : oracle a with
    | recognized t =>
      left
      exact ⟨0, t, Nat.succ_pos f, fun b hb => absurd hb (Nat.not_lt_zero b),
        by simpa using h, by simp [tryRecognize, h]⟩
    | noSpeech =>
      by_cases hf : f = 0
      · subst hf
        right
        refine ⟨fun j hj => ?_, by simp [tryRecognize, h]⟩
        interval_cases j
        simp [h, isTransient]
      · have hpos : 0 < f := Nat.pos_of_ne_zero hf
        rcases ih (a + 1) hpos with ⟨j, t, hj, hb, hr, hv⟩ | ⟨hall, hv⟩
        · left
          refine ⟨j + 1, t, by omega, ?_, ?_, ?_⟩
          · intro b hb2
            cases b with
            | zero => simp [h, isTransient]
            | succ b2 =>
              have := hb b2 (by omega)
              simpa [show a + (b2 + 1) = a + 1 + b2 by omega] using this
          · simpa [show a + (j + 1) = a + 1 + j by omega] using hr
          · simp only [tryRecognize, h, if_neg hf]
            exact hv
        · right
          refine ⟨fun j hj => ?_, ?_⟩
          · cases j with
            | zero => simp [h, isTransient]
            | succ j2 =>
              have := hall j2 (by omega)
              simpa [show a + (j2 + 1) = a + 1 + j2 by omega] using this
          · simp only [tryRecognize, h, if_neg hf]
            exact hv
    | serviceError e =>
      by_cases hf : f = 0
      · subst hf
        right
        refine ⟨fun j hj => ?_, by simp [tryRecognize, h]⟩
        interval_cases j
        simp [h, isTransient]
      · have hpos : 0 < f := Nat.pos_of_ne_zero hf
        rcases ih (a + 1) hpos with ⟨j, t, hj, hb, hr, hv⟩ | ⟨hall, hv⟩
        · left
          refine ⟨j + 1, t, by omega, ?_, ?_, ?_⟩
          · intro b hb2
            cases b with
            | zero => simp [h, isTransient]
            | succ b2 =>
              have := hb b2 (by omega)
              simpa [show a + (b2 + 1) = a + 1 + b2 by omega] using this
          · simpa [show a + (j + 1) = a + 1 + j by omega] using hr
          · simp only [tryRecognize, h, if_neg hf]
            exact hv
        · right
          refine ⟨fun j hj => ?_, ?_⟩
          · cases j with
            | zero => simp [h, isTransient]
            | succ j2 =>
              have := hall j2 (by omega)
              simpa [show a + (j2 + 1) = a + 1 + j2 by omega] using this
          · simp only [tryRecognize, h, if_neg hf]
            exact hv

theorem runChunks_getD (oracle : Nat → Nat → RecOutcome) (d i : Nat)
    (hi : i < numChunks d) :
    (runChunks oracle d).getD i "" = (tryRecognize (oracle i) (i + 1) 0 max_retries).1 := by
  unfold runChunks
  rw [List.getD_eq_getElem?_getD, List.getElem?_map, List.getElem?_range hi]
  rfl

/-! ### Claim theorems: retry orchestration and assembly -/

/-- Claim C1: every chunk ordinal contributes exactly one entry to the
assembled transcript, in ascending ordinal order: the `full_text` list has
one entry per chunk, entry `i` is either the first recognized text of chunk
`i` or the placeholder naming ordinal `i + 1`, and the final document is the
formatted space-join of these entries. -/
theorem pipeline_ordinals (d : Nat) (oracle : Nat → Nat → RecOutcome) :
    (runChunks oracle d).length = numChunks d ∧
    (∀ i, i < numChunks d →
      (∃ a t, a < max_retries ∧ (∀ b, b < a → isTransient (oracle i b) = true) ∧
        oracle i a = RecOutcome.recognized t ∧ (runChunks oracle d).getD i "" = t) ∨
      ((∀ a, a < max_retries → isTransient (oracle i a) = true) ∧
        (runChunks oracle d).getD i "" = chunkPlaceholder (i + 1))) ∧
    (audio_to_text (some d) oracle).output =
      some (format_text (pyJoin " " (runChunks oracle d))) := by
  refine ⟨by simp [runChunks], ?_, rfl⟩
  intro i hi
  have h := tryRecognize_result (oracle i) (i + 1) max_retries 0 (by decide)
  rw [runChunks_getD oracle d i hi]
  simpa using h

/-- Witness for `pipeline_ordinals` at a concrete 75-second run whose middle
chunk always fails transiently: its entry is the placeholder for ordinal 2. -/
def oracleMidFail : Nat → Nat → RecOutcome :=
  fun i _ => if i = 1 then RecOutcome.noSpeech else RecOutcome.recognized "a"

theorem pipeline_ordinals_w :
    (runChunks oracleMidFail 75000).getD 1 "" = chunkPlaceholder 2 := by
  have h := (pipeline_ordinals 75000 oracleMidFail).2.1 1 (by decide)
  rcases h with ⟨a, t, _, _, hrec, _⟩ | ⟨_, hph⟩
  · simp [oracleMidFail] at hrec
  · exact hph

/-- Claim C2: for one chunk, when every attempt is transient the backend is
called exactly `max_retries = 5` times and every backoff sleep is the fixed
5 seconds regardless of failure kind; when the first attempt recognizes text
the backend is called exactly once and that text is returned; the number of
calls never exceeds `max_retries`. -/
theorem retry_call_bounds (oracle : Nat → RecOutcome) (c : Nat) :
    ((∀ j, j < max_retries → isTransient (oracle j) = true) →
      (tryRecognize oracle c 0 max_retries).2.1 = max_retries ∧
      (tryRecognize oracle c 0 max_retries).2.2 = [5, 5, 5, 5]) ∧
    (∀ t, oracle 0 = RecOutcome.recognized t →
      tryRecognize oracle c 0 max_retries = (t, 1, [])) ∧
    (tryRecognize oracle c 0 max_retries).2.1 ≤ max_retries := by
  refine ⟨?_, ?_, tryRecognize_calls_le oracle c max_retries 0⟩
  · intro h
    have heq := tryRecognize_transient oracle c max_retries 0 (by decide)
      (fun j hj => by simpa using h j hj)
    rw [heq]
    exact ⟨rfl, rfl⟩
  · intro t ht
    exact tryRecognize_first oracle c 0 max_retries t (by decide) ht

/-- Witness for `retry_call_bounds`: with every attempt reporting no speech,
chunk 3 consumes exactly 5 calls and four 5-second sleeps. -/
theorem retry_call_bounds_w :
    (tryRecognize allNoSpeech 3 0 max_retries).2.1 = max_retries ∧
    (tryRecognize allNoSpeech 3 0 max_retries).2.2 = [5, 5, 5, 5] :=
  (retry_call_bounds allNoSpeech 3).1 (by decide)

/-- Claim C10: when every attempt fails transiently exactly
`max_retries - 1 = 4` backoff sleeps happen, and in every execution the
number of sleeps is one less than the number of calls — a sleep happens only
between two consecutive attempts, never after the last one. -/
theorem retry_no_sleep_after_last (oracle : Nat → RecOutcome) (c : Nat) :
    ((∀ j, j < max_retries → isTransient (oracle j) = true) →
      (tryRecognize oracle c 0 max_retries).2.2.length = max_retries - 1) ∧
    (tryRecognize oracle c 0 max_retries).2.2.length + 1 =
      (tryRecognize oracle c 0 max_retries).2.1 := by
  refine ⟨?_, tryRecognize_sleeps oracle c max_retries 0 (by decide)⟩
  intro h
  have heq := tryRecognize_transient oracle c max_retries 0 (by decide)
    (fun j hj => by simpa using h j hj)
  rw [heq]
  rfl

/-- Witness for `retry_no_sleep_after_last` on an all-failing chunk. -/
theorem retry_no_sleep_after_last_w :
    (tryRecognize allNoSpeech 1 0 max_retries).2.2.length = max_retries - 1 :=
  (retry_no_sleep_after_last allNoSpeech 1).1 (by decide)

/-! ### Claim theorems: abort behaviour, pass-through and segmentation -/

/-- Claim C5: when decoding/conversion fails the run returns failure with no
chunk processed and no final output; on the success path the single output
write is the last event, after every chunk has been processed. -/
theorem unreadable_aborts (oracle : Nat → Nat → RecOutcome) :
    (audio_to_text none oracle).ok = false ∧
    (audio_to_text none oracle).output = none ∧
    (audio_to_text none oracle).events = [] ∧
    (∀ d, (audio_to_text (some d) oracle).events =
        ((List.range (numChunks d)).map PipeEv.chunkDone) ++ [PipeEv.outputWritten] ∧
      (audio_to_text (some d) oracle).events.getLast? = some PipeEv.outputWritten ∧
      ∀ i, i < numChunks d →
        PipeEv.chunkDone i ∈ (audio_to_text (some d) oracle).events) := by
  refine ⟨rfl, rfl, rfl, fun d => ⟨rfl, ?_, ?_⟩⟩
  · show (((List.range (numChunks d)).map PipeEv.chunkDone)
        ++ [PipeEv.outputWritten]).getLast? = some PipeEv.outputWritten
    simp
  · intro i hi
    show PipeEv.chunkDone i ∈
      ((List.range (numChunks d)).map PipeEv.chunkDone) ++ [PipeEv.outputWritten]
    exact List.mem_append_left _ (List.mem_map_of_mem _ (List.mem_range.mpr hi))

/-- Witness for `unreadable_aborts`: a failed decode writes nothing, and in a
concrete 45-second run the first chunk is processed before the write. -/
theorem unreadable_aborts_w :
    (audio_to_text none allNoSpeechPipe).output = none ∧
    PipeEv.chunkDone 0 ∈ (audio_to_text (some 45000) allNoSpeechPipe).events :=
  ⟨(unreadable_aborts allNoSpeechPipe).2.1,
   ((unreadable_aborts allNoSpeechPipe).2.2.2 45000).2.2 0 (by decide)⟩

/-- Claim C6, amended: the whisper/vosk segmenters do pass the whole source
through with no materialized copy when the duration is at most the segment
length, but the google pipeline in main.py materializes every chunk file,
including the single chunk of a short input. -/
theorem passthrough_amended :
    (∀ (expOk : Nat → Bool) (Lsec d : Nat), 0 < d → d ≤ 1000 * Lsec →
      split_audio (Except.ok d) expOk Lsec = ([Seg.whole], [])) ∧
    (∀ (oracle : Nat → Nat → RecOutcome) (d : Nat), 0 < d →
      (audio_to_text (some d) oracle).chunkFiles.length = numChunks d ∧
      (audio_to_text (some d) oracle).chunkFiles.length ≠ 0) := by
  constructor
  · intro expOk Lsec d _ hle
    simp [split_audio, hle]
  · intro oracle d hd
    have hpos : 0 < numChunks d := Nat.div_pos (by omega) (by norm_num)
    have hlen : (audio_to_text (some d) oracle).chunkFiles.length = numChunks d := by
      simp [audio_to_text]
    exact ⟨hlen, by rw [hlen]; exact hpos.ne'⟩

/-- Counterexample to claim C6 as stated: a 10-second input satisfies
`d ≤ 30 s`, yet the google pipeline writes its (single) chunk to a chunk
file — a materialized copy is made. -/
theorem passthrough_cex :
    (audio_to_text (some 10000) allNoSpeechPipe).chunkFiles = [(0, 10000)] ∧
    10000 ≤ 30 * 1000 :=
  ⟨by decide, by decide⟩

/-- Witness for `passthrough_amended` at concrete inputs. -/
theorem passthrough_amended_w :
    split_audio (Except.ok 200000) expTrue 600 = ([Seg.whole], []) ∧
    (audio_to_text (some 10000) allNoSpeechPipe).chunkFiles.length ≠ 0 :=
  ⟨passthrough_amended.1 expTrue 600 200000 (by decide) (by decide),
   (passthrough_amended.2 allNoSpeechPipe 10000 (by decide)).2⟩

/-- Claim C9: the splitters absorb internal errors: a failed load returns the
original file as the single segment, and a failed segment export likewise
makes the function return the original file as the single segment. -/
theorem split_error_fallback (expOk : Nat → Bool) (Lsec : Nat) :
    (∀ e, split_audio (Except.error e) expOk Lsec = ([Seg.whole], [])) ∧
    (∀ d k, 1000 * Lsec < d → k < d / (1000 * Lsec) + 1 → expOk k = false →
      (split_audio (Except.ok d) expOk Lsec).1 = [Seg.whole]) := by
  constructor
  · intro e; rfl
  · intro d k hd hk hfail
    have hnle : ¬ d ≤ 1000 * Lsec := not_le.mpr hd
    rcases hfind : (List.range (d / (1000 * Lsec) + 1)).find? (fun i => ! expOk i)
      with _ | k2
    · exfalso
      have := List.find?_eq_none.mp hfind k (List.mem_range.mpr hk)
      simp [hfail] at this
    · simp [split_audio, hnle, hfind]

/-- Witness for `split_error_fallback`: a load error and a failing export on
a 20-minute whisper input both yield the original file. -/
theorem split_error_fallback_w :
    split_audio (Except.error "boom") expTrue 600 = ([Seg.whole], []) ∧
    (split_audio (Except.ok 1200000) expFail 600).1 = [Seg.whole] :=
  ⟨(split_error_fallback expTrue 600).1 "boom",
   (split_error_fallback expFail 600).2 1200000 0 (by decide) (by decide) rfl⟩

/-- Claim C3, amended: for `d > L` the splitters produce `d / L + 1`
segments (`floor`, not `ceil`: when `L` divides `d` this is one more than
`ceil(d / L)` and the extra final segment is empty), the segments are
contiguous from 0 to `d` with each non-final segment of length `L`, and a
duration of at most `L` produces exactly one segment. -/
theorem segmenter_amended (d Lsec : Nat) (hL : 0 < Lsec) (hd : 1000 * Lsec < d) :
    (split_audio (Except.ok d) expTrue Lsec).1.length = d / (1000 * Lsec) + 1 ∧
    (¬ (1000 * Lsec) ∣ d →
      d / (1000 * Lsec) + 1 = (d + (1000 * Lsec) - 1) / (1000 * Lsec)) ∧
    ((1000 * Lsec) ∣ d →
      (split_audio (Except.ok d) expTrue Lsec).1.getD (d / (1000 * Lsec)) Seg.whole =
        Seg.part d d) ∧
    (∀ i, i < d / (1000 * Lsec) + 1 →
      (split_audio (Except.ok d) expTrue Lsec).1.getD i Seg.whole =
        Seg.part (i * (1000 * Lsec)) (min ((i + 1) * (1000 * Lsec)) d)) ∧
    (∀ i, i < d / (1000 * Lsec) →
      min ((i + 1) * (1000 * Lsec)) d = (i + 1) * (1000 * Lsec)) ∧
    min ((d / (1000 * Lsec) + 1) * (1000 * Lsec)) d = d ∧
    (∀ e, 0 < e → e ≤ 1000 * Lsec →
      (split_audio (Except.ok e) expTrue Lsec).1.length = 1) := by
  have hLpos : 0 < 1000 * Lsec := by positivity
  have hnle : ¬ d ≤ 1000 * Lsec := not_le.mpr hd
  have hfind : (List.range (d / (1000 * Lsec) + 1)).find? (fun i => ! expTrue i) = none := by
    rw [List.find?_eq_none]
    intro x _
    simp [expTrue]
  have hsplit : (split_audio (Except.ok d) expTrue Lsec).1 =
      (List.range (d / (1000 * Lsec) + 1)).map
        (fun i => Seg.part (i * (1000 * Lsec)) (min ((i + 1) * (1000 * Lsec)) d)) := by
    simp [split_audio, hnle, hfind]
  have hgetD : ∀ i, i < d / (1000 * Lsec) + 1 →
      (split_audio (Except.ok d) expTrue Lsec).1.getD i Seg.whole =
        Seg.part (i * (1000 * Lsec)) (min ((i + 1) * (1000 * Lsec)) d) := by
    intro i hi
    rw [hsplit, List.getD_eq_getElem?_getD, List.getElem?_map, List.getElem?_range hi]
    rfl
  have hlast : min ((d / (1000 * Lsec) + 1) * (1000 * Lsec)) d = d := by
    apply min_eq_right
    have hmod := Nat.mod_lt d hLpos
    have hdm := Nat.div_add_mod d (1000 * Lsec)
    calc d = 1000 * Lsec * (d / (1000 * Lsec)) + d % (1000 * Lsec) := hdm.symm
      _ ≤ 1000 * Lsec * (d / (1000 * Lsec)) + 1000 * Lsec := by omega
      _ = (d / (1000 * Lsec) + 1) * (1000 * Lsec) := by ring
  refine ⟨by simp [hsplit], ?_, ?_, hgetD, ?_, hlast, ?_⟩
  · intro hndvd
    have h1 : (d + 1000 * Lsec - 1) / (1000 * Lsec) = (d - 1) / (1000 * Lsec) + 1 := by
      rw [show d + 1000 * Lsec - 1 = (d - 1) + 1000 * Lsec by omega,
        Nat.add_div_right _ hLpos]
    rw [h1]
    congr 1
    conv_lhs => rw [show d = (d - 1) + 1 by omega]
    rw [Nat.succ_div, if_neg (by rwa [show d - 1 + 1 = d by omega]), Nat.add_zero]
  · intro hdvd
    rw [hgetD (d / (1000 * Lsec)) (Nat.lt_succ_self _), Nat.div_mul_cancel hdvd, hlast]
  · intro i hi
    apply min_eq_left
    calc (i + 1) * (1000 * Lsec) ≤ d / (1000 * Lsec) * (1000 * Lsec) :=
        Nat.mul_le_mul_right _ hi
      _ ≤ d := Nat.div_mul_le_self d (1000 * Lsec)
  · intro e _ hle
    simp [split_audio, hle]

/-- Counterexample to claim C3 as stated: a 1200-second audio with the
whisper segment length of 600 seconds (an exact multiple) yields 3 segments
where `ceil(1200/600) = 2`, the extra final segment being the empty slice
`[1200000, 1200000)`. -/
theorem segmenter_cex :
    (split_audio_for_whisper (Except.ok 1200000) expTrue).1.length = 3 ∧
    (1200000 + 600000 - 1) / 600000 = 2 ∧
    (split_audio_for_whisper (Except.ok 1200000) expTrue).1.getD 2 Seg.whole =
      Seg.part 1200000 1200000 :=
  ⟨by decide, by decide, by decide⟩

/-- Witness for `segmenter_amended`: a 1500-second input with the whisper
segment length, where the floor-plus-one count does agree with the ceiling. -/
theorem segmenter_amended_w :
    (split_audio (Except.ok 1500000) expTrue 600).1.length = 1500000 / (1000 * 600) + 1 ∧
    1500000 / (1000 * 600) + 1 = (1500000 + (1000 * 600) - 1) / (1000 * 600) := by
  have h := segmenter_amended 1500000 600 (by decide) (by decide)
  exact ⟨h.1, h.2.1 (by decide)⟩

/-! ### Lemmas about whitespace collapsing -/

theorem pySplitGo_tokens : ∀ (cs acc : List Char),
    (∀ c ∈ acc, pyIsSpace c = false) →
    ∀ w ∈ pySplitGo cs acc, w ≠ [] ∧ ∀ c ∈ w, pyIsSpace c = false := by
  intro cs
  induction cs with
  | nil =>
    intro acc hacc w hw
    cases acc with
    | nil => simp [pySplitGo] at hw
    | cons a as =>
      rw [show pySplitGo [] (a :: as) = [(a :: as).reverse] by simp [pySplitGo]] at hw
      rw [List.mem_singleton] at hw
      subst hw
      exact ⟨by simp, fun c hc => hacc c (List.mem_reverse.mp hc)⟩
  | cons c0 cs ih =>
    intro acc hacc w hw
    by_cases hsp : pyIsSpace c0
    · cases acc with
      | nil =>
        rw [show pySplitGo (c0 :: cs) [] = pySplitGo cs [] by simp [pySplitGo, hsp]] at hw
        exact ih [] (by simp) w hw
      | cons a as =>
        rw [show pySplitGo (c0 :: cs) (a :: as) = (a :: as).reverse :: pySplitGo cs []
          by simp [pySplitGo, hsp]] at hw
        rcases List.mem_cons.mp hw with rfl | hw2
        · exact ⟨by simp, fun c hc => hacc c (List.mem_reverse.mp hc)⟩
        · exact ih [] (by simp) w hw2
    · rw [show pySplitGo (c0 :: cs) acc = pySplitGo cs (c0 :: acc)
        by simp [pySplitGo, hsp]] at hw
      refine ih (c0 :: acc) ?_ w hw
      intro x hx
      rcases List.mem_cons.mp hx with rfl | hx2
      · simpa using hsp
      · exact hacc x hx2

theorem pySplitGo_word : ∀ (w : List Char), (∀ c ∈ w, pyIsSpace c = false) →
    ∀ cs acc, pySplitGo (w ++ cs) acc = pySplitGo cs (w.reverse ++ acc) := by
  intro w
  induction w with
  | nil => intro _ cs acc; simp
  | cons c w ih =>
    intro hw cs acc
    have hc : pyIsSpace c = false := hw c (List.mem_cons_self c w)
    have hw2 : ∀ x ∈ w, pyIsSpace x = false := fun x hx => hw x (List.mem_cons_of_mem c hx)
    rw [show (c :: w) ++ cs = c :: (w ++ cs) from rfl]
    rw [show pySplitGo (c :: (w ++ cs)) acc = pySplitGo (w ++ cs) (c :: acc)
      by simp [pySplitGo, hc]]
    rw [ih hw2 cs (c :: acc)]
    simp [List.append_assoc]

theorem pySplitGo_joinChars : ∀ (ws : List (List Char)),
    (∀ w ∈ ws, w ≠ [] ∧ ∀ c ∈ w, pyIsSpace c = false) →
    pySplitGo (joinChars ws) [] = ws := by
  intro ws
  induction ws with
  | nil => intro _; simp [joinChars, pySplitGo]
  | cons w ws ih =>
    intro h
    have hw := h w (List.mem_cons_self w ws)
    have hsp : pyIsSpace ' ' = true := rfl
    cases ws with
    | nil =>
      have h2 := pySplitGo_word w hw.2 [] []
      rw [List.append_nil, List.append_nil] at h2
      rw [show joinChars [w] = w from rfl, h2]
      have hne : w.reverse.isEmpty = false := by
        simp [List.isEmpty_eq_false_iff_exists_mem]
        exact hw.1
      simp [pySplitGo, hne]
    | cons x t =>
      have h2 := pySplitGo_word w hw.2 (' ' :: joinChars (x :: t)) []
      rw [List.append_nil] at h2
      rw [show joinChars (w :: x :: t) = w ++ ' ' :: joinChars (x :: t) from rfl, h2]
      have hne : w.reverse.isEmpty = false := by
        simp [List.isEmpty_eq_false_iff_exists_mem]
        exact hw.1
      have hrest := ih (fun v hv => h v (List.mem_cons_of_mem w hv))
      simp [pySplitGo, hsp, hne, hrest]

theorem pyJoin_space_data : ∀ ws : List String,
    (pyJoin " " ws).data = joinChars (ws.map String.data) := by
  intro ws
  induction ws with
  | nil => rfl
  | cons a ws ih =>
    cases ws with
    | nil => rfl
    | cons b t =>
      show (a ++ " " ++ pyJoin " " (b :: t)).data = _
      rw [String.data_append, String.data_append, ih]
      simp [joinChars]

theorem pySplit_tokens (s : String) :
    ∀ w ∈ pySplit s, w ≠ "" ∧ ∀ c ∈ w.data, pyIsSpace c = false := by
  intro w hw
  rcases List.mem_map.mp hw with ⟨l, hl, rfl⟩
  have h := pySplitGo_tokens s.data [] (by simp) l hl
  refine ⟨?_, h.2⟩
  intro hempty
  exact h.1 (by simpa using congrArg String.data hempty)

theorem pySplit_collapse (s : String) : pySplit (collapse s) = pySplit s := by
  show (pySplitGo (pyJoin " " (pySplit s)).data []).map String.mk = pySplit s
  rw [pyJoin_space_data]
  have hgood : ∀ w ∈ (pySplit s).map String.data,
      w ≠ [] ∧ ∀ c ∈ w, pyIsSpace c = false := by
    intro w hw
    rcases List.mem_map.mp hw with ⟨x, hx, rfl⟩
    have h := pySplit_tokens s x hx
    refine ⟨?_, h.2⟩
    intro hnil
    exact h.1 (by simpa using congrArg String.mk hnil)
  rw [pySplitGo_joinChars _ hgood, List.map_map]
  rw [show (String.mk ∘ String.data) = (id : String → String) from funext fun x => rfl,
    List.map_id]

theorem collapse_collapse (s : String) : collapse (collapse s) = collapse s := by
  show pyJoin " " (pySplit (collapse s)) = collapse s
  rw [pySplit_collapse]
  rfl

/-! ### Claim theorems: formatter determinism and statistics -/

/-- Claim C8: re-applying a formatter to the whitespace-collapsed form of a
text gives the same output both times — the re-flow is a deterministic
function of its input; moreover formatting the collapsed text gives exactly
the same document as formatting the original, for all three formatters. -/
theorem formatter_deterministic (t : String) :
    format_text (collapse t) = format_text (collapse t) ∧
    format_text (collapse t) = format_text t ∧
    format_whisper_result (collapse t) = format_whisper_result t ∧
    format_vosk_result (collapse t) = format_vosk_result t := by
  have h := collapse_collapse t
  refine ⟨rfl, ?_, ?_, ?_⟩
  · simp only [format_text]
    rw [h]
  · simp only [format_whisper_result]
    rw [h]
  · simp only [format_vosk_result]
    rw [h]

/-- Claim C7, amended: every formatted document ends with its statistics
block, but only the google formatter reports all four counts (lines, words,
characters, paragraphs — the line and paragraph counts computed over the
re-flowed output, the word and character counts over the collapsed
pre-formatted text); the whisper and vosk formatters report only word and
character counts (over the collapsed text). -/
theorem stats_block_amended (t : String) :
    format_text t =
      ("ТРАНСКРИПЦИЯ АУДИО\n" ++ pyJoin "\n\n" (reflowParas 120 5 (pySplit (collapse t))))
        ++ statsBlockGoogle t ∧
    format_whisper_result t =
      ("ТРАНСКРИПЦИЯ АУДИО (WHISPER)\n\n"
          ++ pyJoin "\n\n" (reflowParas 80 4 (pySplit (collapse t))))
        ++ statsBlockLocal t ∧
    format_vosk_result t =
      ("ТРАНСКРИПЦИЯ АУДИО (VOSK)\n\n"
          ++ pyJoin "\n\n" (reflowParas 80 4 (pySplit (collapse t))))
        ++ statsBlockLocal t := by
  refine ⟨?_, ?_, ?_⟩ <;>
    simp only [format_text, format_whisper_result, format_vosk_result,
      statsBlockGoogle, statsBlockLocal, String.append_assoc]

/-- Counterexample to claim C7 as stated: the whisper formatter's output on
a concrete text contains no line-count statistic at all (and the google
formatter's output does). -/
theorem stats_block_cex :
    strOccurs "Количество строк" (format_whisper_result "слово") = false ∧
    strOccurs "Количество строк" (format_text "слово") = true :=
  ⟨by decide, by decide⟩

/-! ### Lemmas about the greedy line packing -/

theorem lineLen_append_singleton (l : List String) (w : String) (h : l ≠ []) :
    lineLen (l ++ [w]) = lineLen l + w.length + 1 := by
  have hpos : 1 ≤ l.length := List.length_pos.mpr h
  simp only [lineLen, List.map_append, List.sum_append, List.map_cons, List.map_nil,
    List.sum_cons, List.sum_nil, List.length_append, List.length_cons, List.length_nil]
  omega

theorem pyJoin_space_length : ∀ l : List String, l ≠ [] →
    (pyJoin " " l).length = lineLen l := by
  intro l
  induction l with
  | nil => intro h; exact absurd rfl h
  | cons a l ih =>
    intro _
    cases l with
    | nil => simp [pyJoin, lineLen]
    | cons b t =>
      show (a ++ " " ++ pyJoin " " (b :: t)).length = _
      rw [String.length_append, String.length_append, ih (by simp)]
      simp only [lineLen, List.map_cons, List.sum_cons, List.length_cons]
      have hone : (" " : String).length = 1 := rfl
      rw [hone]
      omega

theorem fmtStep_render (M C : Nat) (g : GState) (w : String) :
    fmtStep M C (renderState g) w = renderState (gStep M C g w) := by
  simp only [fmtStep, gStep, renderState]
  by_cases hc : g.len + w.length + 1 ≤ M
  · simp [hc]
  · simp only [hc, if_false]
    have hq : (if (g.line.map id).isEmpty then g.para.map (fun l => pyJoin " " l)
        else g.para.map (fun l => pyJoin " " l) ++ [pyJoin " " g.line]) =
        (if g.line.isEmpty then g.para else g.para ++ [g.line]).map
          (fun l => pyJoin " " l) := by
      by_cases hl : g.line.isEmpty <;> simp [hl]
    by_cases hl : g.line.isEmpty
    · simp only [hl, if_true]
      by_cases hcap : C ≤ g.para.length
      · simp [hcap, renderPara, gFinish]
      · simp [hcap]
    · simp only [hl, if_false, List.length_append, List.length_map]
      by_cases hcap : C ≤ (g.para ++ [g.line]).length
      · have hcap2 : C ≤ g.para.length + 1 := by simpa using hcap
        simp [hcap, hcap2, renderPara]
      · have hcap2 : ¬ C ≤ g.para.length + 1 := by simpa using hcap
        simp [hcap, hcap2]

theorem foldl_fmtStep_render (M C : Nat) : ∀ (ws : List String) (g : GState),
    ws.foldl (fmtStep M C) (renderState g) = renderState (ws.foldl (gStep M C) g) := by
  intro ws
  induction ws with
  | nil => intro g; rfl
  | cons w ws ih =>
    intro g
    simp only [List.foldl_cons]
    rw [fmtStep_render, ih]

theorem fmtFinish_render (g : GState) :
    fmtFinish (renderState g) = (gFinish g).map renderPara := by
  simp only [fmtFinish, gFinish, renderState]
  by_cases hl : g.line.isEmpty
  · simp only [hl, if_true]
    by_cases he : g.para.isEmpty
    · have he2 : g.para = [] := List.isEmpty_iff.mp he
      simp [he2]
    · have he2 : g.para ≠ [] := fun hn => by simp [hn] at he
      have hm : (g.para.map (fun l => pyJoin " " l)).isEmpty = false := by
        simp [List.isEmpty_eq_false_iff_exists_mem]
        exact he2
      have hp : g.para.isEmpty = false := by
        simp [List.isEmpty_eq_false_iff_exists_mem]
        exact he2
      simp [hm, hp, renderPara]
  · simp only [hl, if_false]
    have hm : ((g.para ++ [g.line]).map (fun l => pyJoin " " l)).isEmpty = false := by simp
    have hp : (g.para ++ [g.line]).isEmpty = false := by simp
    simp [hm, hp, renderPara]

theorem reflowParas_render (M C : Nat) (ws : List String) :
    reflowParas M C ws = (reflowG M C ws).map renderPara := by
  unfold reflowParas reflowG
  rw [show (⟨[], 0, [], []⟩ : FmtState) = renderState ⟨[], 0, [], []⟩ from rfl]
  rw [foldl_fmtStep_render, fmtFinish_render]

theorem gStep_words (M C : Nat) (g : GState) (w : String) :
    gWords (gStep M C g w) = gWords g ++ [w] := by
  simp only [gStep, gWords]
  by_cases hc : g.len + w.length + 1 ≤ M
  · simp [hc]
  · simp only [hc, if_false]
    by_cases hl : g.line.isEmpty
    · have hl2 : g.line = [] := List.isEmpty_iff.mp hl
      simp only [hl, if_true]
      by_cases hcap : C ≤ g.para.length
      · simp [hcap, hl2, List.flatten_append]
      · simp [hcap, hl2]
    · simp only [hl, if_false, List.length_append, List.length_map]
      by_cases hcap : C ≤ (g.para ++ [g.line]).length
      · have hcap2 : C ≤ g.para.length + 1 := by simpa using hcap
        simp [hcap, hcap2, List.flatten_append, List.append_assoc]
      · have hcap2 : ¬ C ≤ g.para.length + 1 := by simpa using hcap
        simp [hcap, hcap2, List.flatten_append, List.append_assoc]

theorem foldl_gStep_words (M C : Nat) : ∀ (ws : List String) (g : GState),
    gWords (ws.foldl (gStep M C) g) = gWords g ++ ws := by
  intro ws
  induction ws with
  | nil => intro g; simp
  | cons w ws ih =>
    intro g
    simp only [List.foldl_cons]
    rw [ih, gStep_words]
    simp

theorem gFinish_words (g : GState) : (gFinish g).flatten.flatten = gWords g := by
  simp only [gFinish, gWords]
  by_cases hl : g.line.isEmpty
  · have hl2 : g.line = [] := List.isEmpty_iff.mp hl
    simp only [hl, if_true]
    by_cases he : g.para.isEmpty
    · have he2 : g.para = [] := List.isEmpty_iff.mp he
      simp [he, he2, hl2]
    · have hp : g.para.isEmpty = false := by
        simp [List.isEmpty_eq_false_iff_exists_mem]
        exact fun hn => by simp [hn] at he
      simp [hp, hl2, List.flatten_append]
  · simp only [hl, if_false]
    have hp : (g.para ++ [g.line]).isEmpty = false := by simp
    simp [hp, List.flatten_append]

theorem GInv_init (M C : Nat) (hC : 0 < C) : GInv M C ⟨[], 0, [], []⟩ := by
  refine ⟨by simp, by simpa using hC, by simp, by simp [lineLen], by simp, fun _ => rfl⟩

theorem GInv_flushq (M C : Nat) (g : GState) (h : GInv M C g) :
    (∀ l ∈ (if g.line.isEmpty then g.para else g.para ++ [g.line]),
      l ≠ [] ∧ (2 ≤ l.length → lineLen l ≤ M)) ∧
    (if g.line.isEmpty then g.para else g.para ++ [g.line]).length ≤ C := by
  obtain ⟨hparas, hcaplt, hpara, hlen, hbound, hempty⟩ := h
  by_cases hl : g.line.isEmpty
  · rw [if_pos hl]
    exact ⟨hpara, le_of_lt hcaplt⟩
  · rw [if_neg hl]
    constructor
    · intro l hlmem
      rcases List.mem_append.mp hlmem with h1 | h1
      · exact hpara l h1
      · rw [List.mem_singleton] at h1
        subst h1
        refine ⟨fun hn => by simp [hn] at hl, fun h2 => le_trans hlen (hbound h2)⟩
    · have hq : (g.para ++ [g.line]).length = g.para.length + 1 := by simp
      omega

theorem GInv_step (M C : Nat) (hC : 0 < C) (g : GState) (w : String)
    (h : GInv M C g) : GInv M C (gStep M C g w) := by
  have hflush := GInv_flushq M C g h
  obtain ⟨hparas, hcaplt, hpara, hlen, hbound, hempty⟩ := h
  simp only [gStep]
  by_cases hc : g.len + w.length + 1 ≤ M
  · rw [if_pos hc]
    refine ⟨hparas, hcaplt, hpara, ?_, fun _ => hc, fun habs => absurd habs (by simp)⟩
    show lineLen (g.line ++ [w]) ≤ g.len + w.length + 1
    rcases eq_or_ne g.line [] with hnil | hnnil
    · have h0 : g.len = 0 := hempty hnil
      rw [hnil, h0]
      show lineLen [w] ≤ 0 + w.length + 1
      simp [lineLen]
    · rw [lineLen_append_singleton _ _ hnnil]
      omega
  · rw [if_neg hc]
    by_cases hcap : C ≤ (if g.line.isEmpty then g.para else g.para ++ [g.line]).length
    · rw [if_pos hcap]
      refine ⟨?_, by simpa using hC, by simp, ?_, ?_, ?_⟩
      · intro p hp
        rcases List.mem_append.mp hp with h1 | h1
        · exact hparas p h1
        · rw [List.mem_singleton] at h1
          subst h1
          exact ⟨le_antisymm hflush.2 hcap, hflush.1⟩
      · show lineLen [w] ≤ w.length
        simp [lineLen]
      · show 2 ≤ ([w] : List String).length → w.length ≤ M
        intro h2
        simp at h2
      · show ([w] : List String) = [] → w.length = 0
        intro habs
        simp at habs
    · rw [if_neg hcap]
      refine ⟨hparas, not_le.mp hcap, hflush.1, ?_, ?_, ?_⟩
      · show lineLen [w] ≤ w.length
        simp [lineLen]
      · show 2 ≤ ([w] : List String).length → w.length ≤ M
        intro h2
        simp at h2
      · show ([w] : List String) = [] → w.length = 0
        intro habs
        simp at habs

theorem GInv_foldl (M C : Nat) (hC : 0 < C) : ∀ (ws : List String) (g : GState),
    GInv M C g → GInv M C (ws.foldl (gStep M C) g) := by
  intro ws
  induction ws with
  | nil => intro g h; exact h
  | cons w ws ih =>
    intro g h
    exact ih _ (GInv_step M C hC g w h)

theorem reflowG_props (M C : Nat) (hC : 0 < C) (ws : List String) :
    (reflowG M C ws).flatten.flatten = ws ∧
    (∀ p ∈ reflowG M C ws, p ≠ [] ∧ p.length ≤ C ∧
      ∀ l ∈ p, l ≠ [] ∧ (2 ≤ l.length → lineLen l ≤ M)) ∧
    (∀ p ∈ (reflowG M C ws).dropLast, p.length = C) := by
  have hinv := GInv_foldl M C hC ws ⟨[], 0, [], []⟩ (GInv_init M C hC)
  have hflush := GInv_flushq M C _ hinv
  set g := ws.foldl (gStep M C) ⟨[], 0, [], []⟩ with hg
  obtain ⟨hparas, hcaplt, hpara, hlen, hbound, hempty⟩ := hinv
  have hwords : gWords g = ws := by
    rw [hg, foldl_gStep_words]
    simp [gWords]
  have hrg : reflowG M C ws = gFinish g := rfl
  have hplen_pos : ∀ p ∈ g.paras, p ≠ [] := by
    intro p hp hn
    have := (hparas p hp).1
    rw [hn] at this
    simp at this
    omega
  refine ⟨by rw [hrg, gFinish_words, hwords], ?_, ?_⟩
  · intro p hp
    rw [hrg] at hp
    simp only [gFinish] at hp
    by_cases he : (if g.line.isEmpty then g.para else g.para ++ [g.line]) = []
    · rw [if_pos (List.isEmpty_iff.mpr he)] at hp
      obtain ⟨hplen, hpl⟩ := hparas p hp
      exact ⟨hplen_pos p hp, le_of_eq hplen, hpl⟩
    · rw [if_neg (fun hb => he (List.isEmpty_iff.mp hb))] at hp
      rcases List.mem_append.mp hp with h1 | h1
      · obtain ⟨hplen, hpl⟩ := hparas p h1
        exact ⟨hplen_pos p h1, le_of_eq hplen, hpl⟩
      · rw [List.mem_singleton] at h1
        subst h1
        exact ⟨he, hflush.2, hflush.1⟩
  · rw [hrg]
    simp only [gFinish]
    by_cases he : (if g.line.isEmpty then g.para else g.para ++ [g.line]) = []
    · rw [if_pos (List.isEmpty_iff.mpr he)]
      intro p hp
      exact (hparas p (List.dropLast_subset _ hp)).1
    · rw [if_neg (fun hb => he (List.isEmpty_iff.mp hb)), List.dropLast_concat]
      intro p hp
      exact (hparas p hp).1

/-- Claim C4, amended: the greedy line packing never splits a word (the
words of the re-flowed paragraphs are exactly the input words, in order) and
paragraph boundaries occur only at the configured line cap (every non-final
paragraph has exactly `cap` lines, every paragraph at most `cap`) or at end
of input; a rendered line can exceed the configured width only when it is a
single word whose own length exceeds the width — every line holding at least
two words fits within the width. -/
theorem formatter_c4_amended (M C : Nat) (hC : 0 < C) (ws : List String) :
    ∃ G : List (List (List String)),
      reflowParas M C ws = G.map renderPara ∧
      G.flatten.flatten = ws ∧
      (∀ p ∈ G, p ≠ [] ∧ p.length ≤ C ∧
        ∀ l ∈ p, l ≠ [] ∧ (2 ≤ l.length → (pyJoin " " l).length ≤ M)) ∧
      (∀ p ∈ G.dropLast, p.length = C) := by
  obtain ⟨h1, h2, h3⟩ := reflowG_props M C hC ws
  refine ⟨reflowG M C ws, reflowParas_render M C ws, h1, ?_, h3⟩
  intro p hp
  obtain ⟨hne, hle, hl⟩ := h2 p hp
  refine ⟨hne, hle, fun l hlm => ?_⟩
  obtain ⟨hlne, hlb⟩ := hl l hlm
  refine ⟨hlne, fun h2w => ?_⟩
  rw [pyJoin_space_length l hlne]
  exact hlb h2w

set_option maxRecDepth 8000 in
/-- Counterexample to claim C4 as stated: a single 121-character word makes
`format_text`'s re-flow (width 120) emit a paragraph that is one single body
line of 121 characters, exceeding the configured maximum width. -/
theorem formatter_width_cex :
    reflowParas 120 5 (pySplit (String.mk (List.replicate 121 'a'))) =
      [String.mk (List.replicate 121 'a')] ∧
    pySplitOnGo '\n' (String.mk (List.replicate 121 'a')).data [] =
      [List.replicate 121 'a'] ∧
    120 < (String.mk (List.replicate 121 'a')).length :=
  ⟨by decide, by decide, by decide⟩

/-- Witness for `formatter_c4_amended` on a concrete three-word text with
the google formatter's configuration. -/
theorem formatter_c4_amended_w :
    0 < 5 ∧ ∃ G : List (List (List String)),
      reflowParas 120 5 (pySplit "раз два три") = G.map renderPara ∧
      G.flatten.flatten = pySplit "раз два три" ∧
      (∀ p ∈ G, p ≠ [] ∧ p.length ≤ 5 ∧
        ∀ l ∈ p, l ≠ [] ∧ (2 ≤ l.length → (pyJoin " " l).length ≤ 120)) ∧
      (∀ p ∈ G.dropLast, p.length = 5) :=
  ⟨by decide, formatter_c4_amended 120 5 (by decide) (pySplit "раз два три")⟩
